import Mathlib

/-!
Verification development for the turndown.cpp HTML-to-Markdown engine.

Strings are modelled as `List Char` (decoded code points); the one place where
the byte level matters (NBSP re-encoding, which scans for the UTF-8 pair
`C2 A0`) is modelled separately on `List Nat` byte lists.  Machine integers
appear only in the `std::stoi` model, where the 32-bit `int` range is explicit.
C++ exceptions are modelled with `Option`/`Except`.
-/

namespace Turndown

/-- A newline or carriage-return character, the class stripped by
`trimLeadingNewlines` / `trimTrailingNewlines` in src/turndown.cpp. -/
def isNlCr (c : Char) : Bool := c = '\n' || c = '\r'

/-- ASCII whitespace as tested by the trailing-trim lambda at the end of
`TurndownService::runPipeline` (space, tab, LF, CR). -/
def isTrailWs (c : Char) : Bool := c = ' ' || c = '\t' || c = '\n' || c = '\r'

/-- Model of `trimLeadingNewlines` (src/turndown.cpp): drop leading LF/CR. -/
def trimLeadingNewlines (s : List Char) : List Char := s.dropWhile isNlCr

/-- Model of `trimTrailingNewlines` (src/turndown.cpp): drop trailing LF/CR. -/
def trimTrailingNewlines (s : List Char) : List Char :=
  (s.reverse.dropWhile isNlCr).reverse

/-- Model of the trailing-whitespace strip performed last in `runPipeline`
(the `trimTrailingWhitespace` lambda): drop trailing space/tab/LF/CR. -/
def trimTrailingWsEnd (s : List Char) : List Char :=
  (s.reverse.dropWhile isTrailWs).reverse

/-- The final output normalisation of `runPipeline`: strip leading newlines,
then strip trailing ASCII whitespace. -/
def finalTrim (s : List Char) : List Char := trimTrailingWsEnd (trimLeadingNewlines s)

/-- Model of `joinChunks` (src/turndown.cpp): join two Markdown chunks with a
newline separator, capped at two newlines. -/
def joinChunks (output addition : List Char) : List Char :=
  if output = [] then addition
  else if addition = [] then output
  else
    let left := trimTrailingNewlines output
    let right := trimLeadingNewlines addition
    let leftRemoved := output.length - left.length
    let rightRemoved := addition.length - right.length
    let separatorLength := max leftRemoved rightRemoved
    let sepLen := if separatorLength > 2 then 2 else separatorLength
    left ++ List.replicate sepLen '\n' ++ right

/-- A character escaped by `minimalEscape` (src/utilities.cpp): backslash or
square bracket. -/
def isMinimalSpecial (c : Char) : Bool := c = '\\' || c = '[' || c = ']'

/-- Model of `minimalEscape` (src/utilities.cpp): prepend a backslash before
every backslash and square bracket, copying all other characters. -/
def minimalEscape : List Char → List Char
  | [] => []
  | c :: cs =>
    if isMinimalSpecial c then '\\' :: c :: minimalEscape cs
    else c :: minimalEscape cs

/-- The UTF-8 lead byte of NBSP (0xC2). -/
def nbspLead : Nat := 0xC2

/-- The UTF-8 continuation byte of NBSP (0xA0). -/
def nbspCont : Nat := 0xA0

/-- The byte sequence of the replacement text `&nbsp;` written by
`encodeNbsp` (src/turndown.cpp). -/
def nbspEntityBytes : List Nat := [38, 110, 98, 115, 112, 59]

/-- Model of `encodeNbsp` (src/turndown.cpp) on byte lists: replace every
occurrence of the UTF-8 pair `C2 A0` with the bytes of `&nbsp;`, scanning
left to right and resuming after each replacement. -/
def encodeNbspBytes : List Nat → List Nat
  | 0xC2 :: 0xA0 :: rest => nbspEntityBytes ++ encodeNbspBytes rest
  | b :: rest => b :: encodeNbspBytes rest
  | [] => []

/-- Decidable scan for an adjacent `C2 A0` byte pair: some pair of adjacent
bytes is `C2` followed by `A0`. -/
def hasNbspPair (l : List Nat) : Bool :=
  (l.zip l.tail).any fun p => decide (p.1 = 0xC2) && decide (p.2 = 0xA0)

/-! ## The inline-code rule (src/commonmark_rules.cpp, rule "code") -/

/-- The backtick character, written by code point to keep source lines plain. -/
def backtick : Char := Char.ofNat 96

/-- Model of `regex_replace(content, regex("\r?\n|\r"), " ")` in the inline
code rule: each CR-LF pair, lone LF or lone CR becomes one space. -/
def newlinesToSpaces : List Char → List Char
  | '\r' :: '\n' :: rest => ' ' :: newlinesToSpaces rest
  | '\n' :: rest => ' ' :: newlinesToSpaces rest
  | '\r' :: rest => ' ' :: newlinesToSpaces rest
  | c :: rest => c :: newlinesToSpaces rest
  | [] => []

/-- Helper for `backtickRuns`: the accumulator is the length of the backtick
run currently being read. -/
def backtickRunsAux : List Char → Nat → List Nat
  | [], n => if n = 0 then [] else [n]
  | c :: cs, n =>
    if c = backtick then backtickRunsAux cs (n + 1)
    else if n = 0 then backtickRunsAux cs 0
    else n :: backtickRunsAux cs 0

/-- The lengths of the maximal backtick runs of a string: the matches the
inline code rule collects with `sregex_iterator` over the pattern of one or
more backticks. -/
def backtickRuns (s : List Char) : List Nat := backtickRunsAux s 0

/-- Model of the delimiter-growing loop of the inline code rule: starting
from length 1, increment while the current length occurs among the run
lengths.  The fuel bound is one more than the largest run length, which the
loop can never exceed. -/
def delimSearch (runs : List Nat) : Nat → Nat → Nat
  | 0, k => k
  | fuel + 1, k => if k ∈ runs then delimSearch runs fuel (k + 1) else k

/-- The length of the backtick delimiter chosen by the inline code rule. -/
def delimiterLen (runs : List Nat) : Nat :=
  delimSearch runs (runs.foldr max 0 + 1) 1

/-- Model of `regex_search(normalized, regex("^`|^ .*?[^ ].* $|`$"))` in the
inline code rule: the content needs a padding space when it starts or ends
with a backtick, or when it starts and ends with a space and has some
non-space character strictly in between. -/
def needsSpaceB (s : List Char) : Bool :=
  decide (s.head? = some backtick) || decide (s.getLast? = some backtick) ||
    (decide (s.head? = some ' ') && decide (s.getLast? = some ' ') &&
      ((s.drop 1).dropLast.any fun c => !(c = ' ')))

/-- Model of the inline code rule's replacement (src/commonmark_rules.cpp,
rule "code"): collapse line breaks to spaces, choose a backtick delimiter
not colliding with any backtick run of the content, pad when needed. -/
def codeReplacement (content : List Char) : List Char :=
  if content = [] then []
  else
    let normalized := newlinesToSpaces content
    let pad := if needsSpaceB normalized then [' '] else []
    let d := delimiterLen (backtickRuns normalized)
    List.replicate d backtick ++ pad ++ normalized ++ pad ++ List.replicate d backtick

/-! ## The fenced code block rule (src/commonmark_rules.cpp) -/

/-- C++ `\s` / `isspace` in the default locale: space, tab, LF, VT, FF, CR. -/
def isCppSpace (c : Char) : Bool :=
  c = ' ' || c = '\t' || c = '\n' || c = Char.ofNat 11 || c = Char.ofNat 12 || c = '\r'

/-- The length of the run of the fence character at the start of a line. -/
def leadingRun (fc : Char) (line : List Char) : Nat :=
  (line.takeWhile fun c => c = fc).length

/-- Model of the fence-length computation of the fencedCodeBlock rule: the
pattern `(^|\n)F` followed by three or more `F` matches exactly the maximal
runs of the fence character of length at least three sitting at the start of
a line, and the fence length is the maximum of 3 and one more than each such
run. -/
def fenceSizeFor (fc : Char) (code : List Char) : Nat :=
  (code.splitOn '\n').foldl
    (fun acc line =>
      let run := leadingRun fc line
      if 3 ≤ run then max acc (run + 1) else acc)
    3

/-- Model of the `language-(\S+)` class-attribute scan of the fencedCodeBlock
rule: find the leftmost occurrence of `language-` followed by at least one
non-whitespace character and return that run. -/
def languageFromClass : List Char → List Char
  | [] => []
  | c :: cs =>
    if "language-".toList.isPrefixOf (c :: cs) &&
        (((c :: cs).drop 9).head?.elim false fun d => !isCppSpace d) then
      ((c :: cs).drop 9).takeWhile fun d => !isCppSpace d
    else languageFromClass cs

/-- Model of the fencedCodeBlock rule's replacement: the fence character is
the first character of the configured fence (backtick when empty), the fence
length is computed on the raw code text before the single trailing newline is
stripped. -/
def fencedCodeReplacement (fence classAttr codeText : List Char) : List Char :=
  let language := languageFromClass classAttr
  let fc := fence.headD backtick
  let d := fenceSizeFor fc codeText
  let code := if codeText.getLast? = some '\n' then codeText.dropLast else codeText
  "\n\n".toList ++ List.replicate d fc ++ language ++ ['\n'] ++ code ++ ['\n']
    ++ List.replicate d fc ++ "\n\n".toList

/-! ## The std::stoi model used by the listItem rule -/

/-- An ASCII decimal digit. -/
def isAsciiDigit (c : Char) : Bool := decide ('0' ≤ c) && decide (c ≤ '9')

/-- Model of `std::stoi` on a 32-bit `int`: skip leading whitespace, read an
optional sign and at least one digit, stop at the first non-digit; `none`
models the thrown `std::invalid_argument` (no digits) or `std::out_of_range`
(value outside the `int` range). -/
def cppStoi (s : List Char) : Option Int :=
  let s1 := s.dropWhile isCppSpace
  let signAndRest : Bool × List Char :=
    match s1 with
    | '-' :: rest => (true, rest)
    | '+' :: rest => (false, rest)
    | _ => (false, s1)
  let digits := signAndRest.2.takeWhile isAsciiDigit
  if digits = [] then none
  else
    let n : Nat := digits.foldl (fun acc c => acc * 10 + (c.toNat - 48)) 0
    let v : Int := if signAndRest.1 then -(n : Int) else (n : Int)
    if v < -2147483648 || 2147483647 < v then none else some v

/-- Model of the listItem rule's marker computation for an `<ol>` parent:
`start` defaults to 1 when the attribute is absent, otherwise it is parsed
with `std::stoi`; `none` models the uncaught exception escaping the rule.
`index` is the element index of the `<li>` within its parent. -/
def listItemOlMarker (startAttr : List Char) (index : Int) : Option (List Char) :=
  match (if startAttr = [] then some 1 else cppStoi startAttr) with
  | none => none
  | some start =>
    some ((if 0 ≤ index then (toString (start + index)).toList else "1".toList)
      ++ ".  ".toList)

/-! ## The whitespace collapser's per-element state update
(src/collapse_whitespace.cpp, element branch of the walk loop) -/

/-- The block-element tag list of `isBlock` (src/utilities.cpp). -/
def blockTags : List String :=
  ["address", "article", "aside", "audio", "blockquote", "body", "canvas",
   "center", "dd", "dir", "div", "dl", "dt", "fieldset", "figcaption",
   "figure", "footer", "form", "frameset", "h1", "h2", "h3", "h4", "h5",
   "h6", "header", "hgroup", "hr", "html", "isindex", "li", "main", "menu",
   "nav", "noframes", "noscript", "ol", "output", "p", "pre", "section",
   "table", "tbody", "td", "tfoot", "th", "thead", "tr", "ul"]

/-- The void-element tag list of `isVoid` (src/utilities.cpp). -/
def voidTags : List String :=
  ["area", "base", "br", "col", "command", "embed", "hr",
   "img", "input", "keygen", "link", "meta", "param",
   "source", "track", "wbr"]

/-- The tag list of `isMeaningfulWhenBlank` (src/utilities.cpp). -/
def meaningfulWhenBlankTags : List String :=
  ["a", "table", "thead", "tbody", "tfoot", "th", "td",
   "iframe", "script", "audio", "video"]

/-- The walk state of `collapseWhitespace`: the replacement table and the
omission set (keyed by node identity, here a `Nat`), the last stored text
node and the keep-leading-whitespace flag. -/
structure CollapseState where
  repl : List (Nat × List Char)
  omitted : List Nat
  prevText : Option Nat
  keepLeading : Bool
  deriving DecidableEq, Repr

/-- Update the value stored under a key of an association list. -/
def updateAssoc (m : List (Nat × List Char)) (k : Nat) (v : List Char) :
    List (Nat × List Char) :=
  m.map fun p => if p.1 = k then (k, v) else p

/-- Insert or update a key of an association list. -/
def setAssoc (m : List (Nat × List Char)) (k : Nat) (v : List Char) :
    List (Nat × List Char) :=
  if (m.lookup k).isSome then updateAssoc m k v else m ++ [(k, v)]

/-- The strip-trailing-space-of-previous-text-node step shared by the
block/`<br>` branch and the end of the walk in `collapseWhitespace`: when the
replacement recorded for the previous text node ends with a space, drop that
space, and add the node to the omission set when that empties it. -/
def stripPrevTrailingSpace (st : CollapseState) : CollapseState :=
  match st.prevText with
  | none => st
  | some h =>
    match st.repl.lookup h with
    | none => st
    | some t =>
      if t.getLast? = some ' ' then
        let t2 := t.dropLast
        { st with
            repl := updateAssoc st.repl h t2,
            omitted := if t2 = [] then st.omitted ++ [h] else st.omitted }
      else st

/-- Model of the element branch of the `collapseWhitespace` walk loop
(src/collapse_whitespace.cpp lines 91-116): block or `<br>` elements strip
the previous text node's trailing space and clear both state fields; void or
preformatted elements clear the previous text node and set `keepLeading`;
any other element clears `keepLeading` only when a previous text node has
been recorded. -/
def collapseElementStep (treatCodeAsPre : Bool) (tag : String)
    (st : CollapseState) : CollapseState :=
  let blockLike := tag ∈ blockTags
  let isBr := tag = "br"
  let preNode := tag = "pre" || (treatCodeAsPre && tag = "code")
  let voidNode := tag ∈ voidTags
  if blockLike || isBr then
    let st2 := stripPrevTrailingSpace st
    { st2 with prevText := none, keepLeading := false }
  else if voidNode || preNode then
    { st with prevText := none, keepLeading := true }
  else if st.prevText.isSome then
    { st with keepLeading := false }
  else st

/-- The whitespace class collapsed by the text branch of the walk
(the regex class of space, CR, LF, tab). -/
def isCollapseWs (c : Char) : Bool := c = ' ' || c = '\r' || c = '\n' || c = '\t'

/-- Helper for `collapseRuns`: the flag records whether the scanner is inside
a whitespace run whose replacement space has already been emitted. -/
def collapseRunsAux : List Char → Bool → List Char
  | [], _ => []
  | c :: cs, inRun =>
    if isCollapseWs c then
      if inRun then collapseRunsAux cs true else ' ' :: collapseRunsAux cs true
    else c :: collapseRunsAux cs false

/-- Model of `regex_replace(text, regex("[ \r\n\t]+"), " ")` in the text
branch of the walk: each maximal run of space/CR/LF/tab becomes one space. -/
def collapseRuns (s : List Char) : List Char := collapseRunsAux s false

/-- Model of the text-node branch of the `collapseWhitespace` walk loop:
collapse whitespace runs, drop a leading space when the previous replacement
ends with a space (or no text node was recorded) and `keepLeading` is not
set, then either record the node as omitted (empty result) or store the
replacement and make this node the previous text node. -/
def collapseTextStep (h : Nat) (raw : List Char) (st : CollapseState) :
    CollapseState :=
  let text := collapseRuns raw
  let prevEndedWithSpace :=
    match st.prevText with
    | none => false
    | some ph =>
      match st.repl.lookup ph with
      | some t => decide (t.getLast? = some ' ')
      | none => false
  let text2 :=
    if (st.prevText.isNone || prevEndedWithSpace) && !st.keepLeading &&
        decide (text.head? = some ' ') then
      text.drop 1
    else text
  if text2 = [] then { st with omitted := st.omitted ++ [h] }
  else { st with repl := setAssoc st.repl h text2, prevText := some h,
                 keepLeading := false }

/-! ## The DOM model and the reducer
(src/turndown.cpp `processNode` / `processChildren` / `replacementForNode`,
src/commonmark_rules.cpp rule bodies, rules.cpp `Rules::forNode`).

Node identity plays no role in the reducer, so a node is its tree.  The
whitespace-collapse side table only substitutes text content and omissions of
text nodes; it is not threaded through this model (`getNodeText` is read as
the raw text), which leaves rule dispatch and reference accumulation
untouched. -/

/-- A DOM node: a text-like node (Text/Whitespace/CData), a comment, or an
element with a tag, attributes and children. -/
inductive DomNode where
  | text (s : List Char)
  | comment (s : List Char)
  | elem (tag : String) (attrs : List (String × List Char)) (children : List DomNode)

/-- The tag of an element node. -/
def elemTag? : DomNode → Option String
  | .elem t _ _ => some t
  | _ => none

/-- Whether a node is an element. -/
def isElemB (n : DomNode) : Bool := (elemTag? n).isSome

/-- Attribute lookup: the raw value, empty when absent
(`NodeView::attribute`). -/
def attrOf (attrs : List (String × List Char)) (name : String) : List Char :=
  (attrs.lookup name).getD []

/-- Attribute lookup on a node. -/
def nodeAttrOf (n : DomNode) (name : String) : List Char :=
  match n with
  | .elem _ attrs _ => attrOf attrs name
  | _ => []

/-- Whether an element node's tag is in a tag list (`nodeHasTag` over a
`TagList` in src/utilities.cpp). -/
def nodeHasTagIn (tags : List String) (n : DomNode) : Bool :=
  (elemTag? n).elim false fun t => decide (t ∈ tags)

/-- The `isBlock` classifier (src/utilities.cpp). -/
def isBlockN (n : DomNode) : Bool := nodeHasTagIn blockTags n

/-- The `isVoid` classifier (src/utilities.cpp). -/
def isVoidN (n : DomNode) : Bool := nodeHasTagIn voidTags n

/-- The `isMeaningfulWhenBlank` classifier (src/utilities.cpp). -/
def isMeaningfulN (n : DomNode) : Bool := nodeHasTagIn meaningfulWhenBlankTags n

mutual
/-- Collected text of a subtree (`collectText` / `getNodeText` with the
collapse context not engaged). -/
def nodeText : DomNode → List Char
  | .text s => s
  | .comment _ => []
  | .elem _ _ cs => nodeTextList cs

/-- Concatenated collected text of a node list. -/
def nodeTextList : List DomNode → List Char
  | [] => []
  | c :: cs => nodeText c ++ nodeTextList cs
end

mutual
/-- The `hasDescendantWithTag` check (src/utilities.cpp): some descendant is
an element with a tag in the list. -/
def hasTagInDesc (tags : List String) : DomNode → Bool
  | .elem _ _ cs => anyTagInDesc tags cs
  | _ => false

/-- Disjunction of `nodeHasTagIn` and `hasTagInDesc` over a node list. -/
def anyTagInDesc (tags : List String) : List DomNode → Bool
  | [] => false
  | c :: cs => nodeHasTagIn tags c || hasTagInDesc tags c || anyTagInDesc tags cs
end

/-- An ASCII whitespace code point (`isAsciiWhitespaceCodePoint`,
src/utilities.cpp): space or 0x09-0x0D. -/
def isAsciiWsCp (c : Char) : Bool :=
  c = ' ' || (decide (0x09 ≤ c.toNat) && decide (c.toNat ≤ 0x0D))

/-- A Unicode whitespace code point (`isUnicodeWhitespace`,
src/utilities.cpp). -/
def isUnicodeWsChar (c : Char) : Bool :=
  isAsciiWsCp c ||
    decide (c.toNat ∈ [0x85, 0xA0, 0x1680, 0x180E, 0x2000, 0x2001, 0x2002,
      0x2003, 0x2004, 0x2005, 0x2006, 0x2007, 0x2008, 0x2009, 0x200A, 0x2028,
      0x2029, 0x202F, 0x205F, 0x3000])

/-- The `isBlank` predicate (src/node.cpp): not void or meaningful-when-blank,
whitespace-only collected text, and no void or meaningful-when-blank
descendant. -/
def isBlankN (n : DomNode) : Bool :=
  !(isElemB n && (isVoidN n || isMeaningfulN n)) &&
    (nodeText n).all isUnicodeWsChar &&
    !(isElemB n && (hasTagInDesc voidTags n || hasTagInDesc meaningfulWhenBlankTags n))

/-- The `trimStr` utility (src/utilities.cpp): strip Unicode whitespace from
both ends. -/
def trimStrC (s : List Char) : List Char :=
  ((s.dropWhile isUnicodeWsChar).reverse.dropWhile isUnicodeWsChar).reverse

/-- HTML escaping used by `serializeNode` (src/utilities.cpp `escapeHtml`). -/
def escapeHtml (forAttr : Bool) (s : List Char) : List Char :=
  s.flatMap fun c =>
    if c = '&' then "&amp;".toList
    else if c = '<' then "&lt;".toList
    else if c = '>' then "&gt;".toList
    else if c = '"' then (if forAttr then "&quot;".toList else [c])
    else if c = '\'' then (if forAttr then "&#39;".toList else [c])
    else [c]

mutual
/-- The `serializeNode` utility (src/utilities.cpp): serialize a node back to
HTML; void elements emit no closing tag. -/
def serializeNode : DomNode → List Char
  | .text s => escapeHtml false s
  | .comment s => "<!--".toList ++ s ++ "-->".toList
  | .elem tag attrs children =>
    let attrsOut := attrs.flatMap fun p =>
      [' '] ++ p.1.toList ++ "=\"".toList ++ escapeHtml true p.2 ++ ['"']
    let openTag := ['<'] ++ tag.toList ++ attrsOut ++ ['>']
    if tag ∈ voidTags then openTag
    else openTag ++ serializeList children ++ "</".toList ++ tag.toList ++ ['>']

/-- Serialization of a node list. -/
def serializeList : List DomNode → List Char
  | [] => []
  | c :: cs => serializeNode c ++ serializeList cs
end

/-- The character-level NBSP re-encoding used on flanking whitespace
(src/node.cpp static `encodeNbsp`): the decoded code point U+00A0 becomes the
text `&nbsp;`. -/
def encodeNbspChars : List Char → List Char
  | [] => []
  | c :: cs =>
    if c = Char.ofNat 0xA0 then "&nbsp;".toList ++ encodeNbspChars cs
    else c :: encodeNbspChars cs

/-- The traversal context of a node: the parent element's tag and attributes
(none when the parent is not an element), the siblings on either side in
order, and whether some strict ancestor is a `code` element. -/
structure Ctx where
  parentTag : Option String
  parentAttrs : List (String × List Char)
  leftSibs : List DomNode
  rightSibs : List DomNode
  inCode : Bool

/-- The `isCodeNode` classifier (src/utilities.cpp): the node or one of its
ancestors is a `code` element. -/
def isCodeN (ctx : Ctx) (n : DomNode) : Bool :=
  ctx.inCode || decide (elemTag? n = some "code")

/-- The `isFlankedByWhitespace` check (src/node.cpp): the adjacent sibling on
the given side exists, is not a block element (nor code when
`preformattedCode` is set), is element or text-like, and its text touches the
node with an ASCII space. -/
def isFlankedBySib (ctx : Ctx) (preformattedCode : Bool) (left : Bool) : Bool :=
  let sib? := if left then ctx.leftSibs.getLast? else ctx.rightSibs.head?
  match sib? with
  | none => false
  | some sib =>
    let blocked :=
      match sib with
      | .elem t _ _ =>
        (preformattedCode && (ctx.inCode || t = "code")) || decide (t ∈ blockTags)
      | .text _ => false
      | .comment _ => true
    if blocked then false
    else
      let t := nodeText sib
      if t.isEmpty then false
      else if left then decide (t.getLast? = some ' ')
      else decide (t.head? = some ' ')

/-- Flanking whitespace of a node. -/
structure Flank where
  leading : List Char
  trailing : List Char

/-- The `flankingWhitespace` computation (src/node.cpp): edge Unicode
whitespace of the collected text, with the ASCII portion dropped on a side
where an adjacent inline sibling already supplies a space, then NBSP
re-encoded. -/
def flankingWs (preformattedCode : Bool) (ctx : Ctx) (n : DomNode) : Flank :=
  if isBlockN n || (preformattedCode && isCodeN ctx n) then ⟨[], []⟩
  else
    let text := nodeText n
    if text.isEmpty then ⟨[], []⟩
    else
      let lead := text.takeWhile isUnicodeWsChar
      let leadAscii := lead.filter isAsciiWsCp
      let leadNonAscii := lead.filter fun c => !isAsciiWsCp c
      let allWs := decide (lead.length = text.length)
      let trail := if allWs then [] else (text.reverse.takeWhile isUnicodeWsChar).reverse
      let trailAscii := trail.filter isAsciiWsCp
      let trailNonAscii := trail.filter fun c => !isAsciiWsCp c
      let leading :=
        if !leadAscii.isEmpty && isFlankedBySib ctx preformattedCode true then
          leadNonAscii
        else lead
      let trailing :=
        if !trailAscii.isEmpty && isFlankedBySib ctx preformattedCode false then
          trailNonAscii
        else trail
      ⟨encodeNbspChars leading, encodeNbspChars trailing⟩

/-- The recognized conversion options (`TurndownOptions`, include/turndown.h),
with the defaults of the `TurndownOptions` constructor.  The three
replacement hooks (blank, keep, default) are the built-in ones, inlined in
`applyRule`. -/
structure Options where
  headingStyle : String := "setext"
  hr : List Char := "* * *".toList
  bulletListMarker : List Char := "*".toList
  codeBlockStyle : String := "indented"
  fence : List Char := "```".toList
  emDelimiter : List Char := "_".toList
  strongDelimiter : List Char := "**".toList
  linkStyle : String := "inlined"
  linkReferenceStyle : String := "full"
  br : List Char := "  ".toList
  preformattedCode : Bool := false
  escapeFunction : List Char → List Char
  keepTags : List String := []

/-- The tag-filter keep and remove rule lists added through
`Rules::keep` / `Rules::remove` (rules.cpp). -/
structure ExtraRules where
  keepTagsRules : List String := []
  removeTags : List String := []

/-- The error escaping a conversion: the exception thrown by `std::stoi` in
the listItem rule. -/
inductive PErr where
  | stoiFail
  deriving DecidableEq, Repr

/-- The identity of the rule `Rules::forNode` resolves for an element. -/
inductive RuleId where
  | blank
  | paragraph
  | lineBreak
  | heading (level : Nat)
  | blockquote
  | list
  | listItem
  | indentedCode
  | fencedCode
  | horizontalRule
  | inlineLink
  | referenceLink
  | emphasis
  | strong
  | code
  | image
  | keep
  | remove
  | dflt
  deriving DecidableEq, Repr

/-- First child element with the given tag (`NodeView::find_child`). -/
def findChildTag (children : List DomNode) (tag : String) : Option DomNode :=
  children.find? fun c => decide (elemTag? c = some tag)

/-- The ordered scan of `Rules::findRule` (rules.cpp): the first entry whose
guard holds determines the rule. -/
def builtinScan : List (Bool × RuleId) → Option RuleId
  | [] => none
  | (g, r) :: rest => if g then some r else builtinScan rest

/-- The built-in CommonMark rule array (src/commonmark_rules.cpp) in scan
order: `Rules::addRule` pushes each rule to the front, so the scan order is
the reverse of the registration order in `defineCommonMarkRules`.  Each entry
pairs the rule's filter applied to the node with the rule's identity. -/
def builtinGuards (opts : Options) (ctx : Ctx) (tag : String)
    (attrs : List (String × List Char)) (children : List DomNode) :
    List (Bool × RuleId) :=
  [ (decide (tag = "img"), .image),
    (decide (tag = "code") && !(decide (ctx.parentTag = some "pre") &&
      !((ctx.leftSibs ++ ctx.rightSibs).any isElemB)), .code),
    (decide (tag = "strong") || decide (tag = "b"), .strong),
    (decide (tag = "em") || decide (tag = "i"), .emphasis),
    (decide (opts.linkStyle = "referenced") && decide (tag = "a") &&
      !(attrOf attrs "href").isEmpty, .referenceLink),
    (decide (opts.linkStyle = "inlined") && decide (tag = "a") &&
      !(attrOf attrs "href").isEmpty, .inlineLink),
    (decide (tag = "hr"), .horizontalRule),
    (decide (opts.codeBlockStyle = "fenced") && decide (tag = "pre") &&
      (findChildTag children "code").isSome, .fencedCode),
    (decide (opts.codeBlockStyle = "indented") && decide (tag = "pre") &&
      (findChildTag children "code").isSome, .indentedCode),
    (decide (tag = "li"), .listItem),
    (decide (tag = "ul") || decide (tag = "ol"), .list),
    (decide (tag = "blockquote"), .blockquote),
    (decide (tag = "h6"), .heading 6),
    (decide (tag = "h5"), .heading 5),
    (decide (tag = "h4"), .heading 4),
    (decide (tag = "h3"), .heading 3),
    (decide (tag = "h2"), .heading 2),
    (decide (tag = "h1"), .heading 1),
    (decide (tag = "br"), .lineBreak),
    (decide (tag = "p"), .paragraph) ]

/-- Model of `Rules::forNode` (rules.cpp): the blank rule preempts everything
for non-void blank nodes; then the main rule array is scanned front to back,
then keep rules, then remove rules, then the default rule. -/
def ruleFor (opts : Options) (extra : ExtraRules) (ctx : Ctx) (tag : String)
    (attrs : List (String × List Char)) (children : List DomNode) : RuleId :=
  let n := DomNode.elem tag attrs children
  if !isVoidN n && isBlankN n then .blank
  else
    match builtinScan (builtinGuards opts ctx tag attrs children) with
    | some r => r
    | none =>
      if tag ∈ extra.keepTagsRules then .keep
      else if tag ∈ extra.removeTags then .remove
      else .dflt

/-- UTF-8 byte length of a string; the C++ rule bodies measure
`std::string::length()` in bytes. -/
def byteLen (s : List Char) : Nat := s.foldl (fun a c => a + c.utf8Size) 0

/-- Helper for `cleanAttr`: the flag records being inside a whitespace block
opened by a newline, whose single replacement newline is already emitted. -/
def cleanAttrAux : List Char → Bool → List Char
  | [], _ => []
  | c :: cs, true => if isCppSpace c then cleanAttrAux cs true else c :: cleanAttrAux cs false
  | c :: cs, false =>
    if c = '\n' then '\n' :: cleanAttrAux cs true else c :: cleanAttrAux cs false

/-- Model of `cleanAttribute` (src/commonmark_rules.cpp): the pattern of
newline-led whitespace blocks collapses each maximal whitespace block that
starts with a newline to one newline. -/
def cleanAttr (s : List Char) : List Char := cleanAttrAux s false

/-- The newline trim of src/commonmark_rules.cpp (`trimNewlines`):
leading and trailing CR/LF stripped. -/
def trimNewlinesC (s : List Char) : List Char :=
  trimTrailingNewlines (trimLeadingNewlines s)

/-- Replace every newline by a newline and four spaces
(`regex_replace(result, regex("\n"), "\n    ")`). -/
def indentLines (s : List Char) : List Char :=
  s.flatMap fun c => if c = '\n' then '\n' :: "    ".toList else [c]

/-- Model of `regex_replace(result, regex("\n\s*$"), "\n    ")` in the
listItem rule: the leftmost newline followed by whitespace only, together
with that whitespace, becomes a newline and four spaces. -/
def replaceNlWsEnd : List Char → List Char
  | [] => []
  | c :: cs =>
    if c = '\n' && cs.all isCppSpace then '\n' :: "    ".toList
    else c :: replaceNlWsEnd cs

/-- The listItem rule's replacement (src/commonmark_rules.cpp): the `Except`
models the `std::stoi` exception escaping the rule on a malformed `start`
attribute of an `<ol>` parent. -/
def listItemReplacement (opts : Options) (ctx : Ctx) (content : List Char) :
    Except PErr (List Char) := do
  let r1 := trimLeadingNewlines content
  let trimmed := trimTrailingNewlines r1
  let hadTrailingNewlines := decide (trimmed.length ≠ r1.length)
  let r2 := if hadTrailingNewlines then trimmed ++ ['\n'] else trimmed
  let r3 := indentLines r2
  let marker ←
    if ctx.parentTag = some "ol" then
      let index : Int := (ctx.leftSibs.countP isElemB : Nat)
      let startAttr := attrOf ctx.parentAttrs "start"
      match (if startAttr = [] then some 1 else cppStoi startAttr) with
      | none => Except.error PErr.stoiFail
      | some start =>
        pure ((if (0 : Int) ≤ index then (toString (start + index)).toList
               else "1".toList) ++ ".  ".toList)
    else
      pure (opts.bulletListMarker ++ "   ".toList)
  let hasNext := ctx.rightSibs.any isElemB
  let r4 := if hasNext && r3.any (· = '\n') then replaceNlWsEnd r3 else r3
  let needsTrailingNewline := hasNext && !(decide (r4.getLast? = some '\n'))
  pure (marker ++ r4 ++ (if needsTrailingNewline then ['\n'] else []))

/-- Escape every backslash-sensitive occurrence of a single character
(the `escape_char` helper of `advancedEscape`). -/
def escCharAll (needle : Char) (s : List Char) : List Char :=
  s.flatMap fun c => if c = needle then ['\\', c] else [c]

/-- Model of `advancedEscape` (src/utilities.cpp), the default escape
function: twelve ordered transformations over the text. -/
def advancedEscape (input : List Char) : List Char :=
  let o1 := escCharAll '\\' input
  let o2 := escCharAll '*' o1
  let o3 := if o2.head? = some '-' then '\\' :: o2 else o2
  let o4 :=
    if decide (o3.head? = some '+') && decide ((o3.drop 1).head? = some ' ') then
      '\\' :: o3
    else o3
  let o5 := if o4.head? = some '=' then '\\' :: o4 else o4
  let o6 :=
    if o5.head? = some '#' then
      let count := (o5.takeWhile fun c => c = '#').length
      if decide (1 ≤ count) && decide (count ≤ 6) &&
          decide ((o5.drop count).head? = some ' ') then
        '\\' :: o5
      else o5
    else o5
  let o7 := escCharAll backtick o6
  let o8 := if "~~~".toList.isPrefixOf o7 then '\\' :: o7 else o7
  let o9 := escCharAll '[' o8
  let o10 := escCharAll ']' o9
  let o11 := if o10.head? = some '>' then '\\' :: o10 else o10
  let o12 := escCharAll '_' o11
  if o12.head?.elim false isAsciiDigit then
    let idx := (o12.takeWhile isAsciiDigit).length
    if decide ((o12.drop idx).head? = some '.') &&
        decide ((o12.drop (idx + 1)).head? = some ' ') then
      o12.take idx ++ '\\' :: o12.drop idx
    else o12
  else o12

/-- The rule replacements (src/commonmark_rules.cpp bodies, and the blank,
keep and default replacements of the `TurndownOptions` constructor), applied
to the already-reduced content of a node; only `referenceLink` touches the
reference store, and only `listItem` can fail. -/
def applyRule (opts : Options) (rid : RuleId) (ctx : Ctx) (tag : String)
    (attrs : List (String × List Char)) (children : List DomNode)
    (content : List Char) (refs : List (List Char)) :
    Except PErr (List Char × List (List Char)) :=
  let n := DomNode.elem tag attrs children
  match rid with
  | .blank => .ok (if isBlockN n then "\n\n".toList else [], refs)
  | .paragraph => .ok ("\n\n".toList ++ content ++ "\n\n".toList, refs)
  | .lineBreak => .ok (opts.br ++ ['\n'], refs)
  | .heading level =>
    if decide (opts.headingStyle = "setext") && decide (level ≤ 2) then
      let underline := List.replicate (byteLen content) (if level = 1 then '=' else '-')
      .ok ("\n\n".toList ++ content ++ ['\n'] ++ underline ++ "\n\n".toList, refs)
    else
      .ok ("\n\n".toList ++ List.replicate level '#' ++ [' '] ++ content
        ++ "\n\n".toList, refs)
  | .blockquote =>
    let trimmed := trimNewlinesC content
    let lines := if trimmed = [] then [] else trimmed.splitOn '\n'
    .ok ("\n\n".toList ++ (lines.flatMap fun l => "> ".toList ++ l ++ ['\n'])
      ++ "\n\n".toList, refs)
  | .list =>
    let inner := trimNewlinesC content
    if decide (ctx.parentTag = some "li") && !(ctx.rightSibs.any isElemB) then
      .ok ('\n' :: inner, refs)
    else
      .ok ("\n\n".toList ++ inner ++ "\n\n".toList, refs)
  | .listItem => do
    let out ← listItemReplacement opts ctx content
    .ok (out, refs)
  | .indentedCode =>
    let source := (findChildTag children "code").getD n
    let code := nodeText source
    let code2 := if code.getLast? = some '\n' then code.dropLast else code
    .ok ("\n\n    ".toList ++ indentLines code2 ++ "\n\n".toList, refs)
  | .fencedCode =>
    match findChildTag children "code" with
    | some cn =>
      .ok (fencedCodeReplacement opts.fence (nodeAttrOf cn "class") (nodeText cn), refs)
    | none => .ok (fencedCodeReplacement opts.fence [] [], refs)
  | .horizontalRule => .ok ("\n\n".toList ++ opts.hr ++ "\n\n".toList, refs)
  | .inlineLink =>
    let href := attrOf attrs "href"
    let escapedHref := href.flatMap fun c =>
      if c = '(' || c = ')' then ['\\', c] else [c]
    let titleAttr := attrOf attrs "title"
    let title := if titleAttr = [] then [] else cleanAttr titleAttr
    let titlePart :=
      if title = [] then []
      else " \"".toList ++ (title.flatMap fun c =>
        if c = '"' then ['\\', '"'] else [c]) ++ ['"']
    .ok (['['] ++ content ++ "](".toList ++ escapedHref ++ titlePart ++ [')'], refs)
  | .referenceLink =>
    let href := attrOf attrs "href"
    let titleAttr := attrOf attrs "title"
    let title := if titleAttr = [] then [] else cleanAttr titleAttr
    let titlePart := if title = [] then [] else " \"".toList ++ title ++ ['"']
    if opts.linkReferenceStyle = "collapsed" then
      .ok (['['] ++ content ++ "][]".toList,
        refs ++ [['['] ++ content ++ "]: ".toList ++ href ++ titlePart])
    else if opts.linkReferenceStyle = "shortcut" then
      .ok (['['] ++ content ++ [']'],
        refs ++ [['['] ++ content ++ "]: ".toList ++ href ++ titlePart])
    else
      let id := (toString (refs.length + 1)).toList
      .ok (['['] ++ content ++ "][".toList ++ id ++ [']'],
        refs ++ [['['] ++ id ++ "]: ".toList ++ href ++ titlePart])
  | .emphasis =>
    if trimStrC content = [] then .ok ([], refs)
    else .ok (opts.emDelimiter ++ content ++ opts.emDelimiter, refs)
  | .strong =>
    if trimStrC content = [] then .ok ([], refs)
    else .ok (opts.strongDelimiter ++ content ++ opts.strongDelimiter, refs)
  | .code => .ok (codeReplacement content, refs)
  | .image =>
    let altAttr := attrOf attrs "alt"
    let alt := if altAttr = [] then [] else cleanAttr altAttr
    let src := attrOf attrs "src"
    let titleAttr := attrOf attrs "title"
    let title := if titleAttr = [] then [] else cleanAttr titleAttr
    if src = [] then .ok ([], refs)
    else
      let titlePart := if title = [] then [] else " \"".toList ++ title ++ ['"']
      .ok ("![".toList ++ alt ++ "](".toList ++ src ++ titlePart ++ [')'], refs)
  | .keep => .ok (serializeNode n, refs)
  | .remove => .ok ([], refs)
  | .dflt =>
    if isBlockN n then .ok ("\n\n".toList ++ content ++ "\n\n".toList, refs)
    else .ok (content, refs)

mutual
/-- The reducer (`processNode` in src/turndown.cpp): text-like nodes are
emitted verbatim inside code and escaped otherwise; elements go through
`replacementForNode` (inlined here: keep-tags bypass, children reduction,
flanking-whitespace trim, rule application); comments reduce to nothing. -/
def processNode (opts : Options) (extra : ExtraRules) (ctx : Ctx) (n : DomNode)
    (refs : List (List Char)) : Except PErr (List Char × List (List Char)) :=
  match n with
  | .text s =>
    if s = [] then .ok ([], refs)
    else if isCodeN ctx (.text s) then .ok (s, refs)
    else .ok (opts.escapeFunction s, refs)
  | .comment _ => .ok ([], refs)
  | .elem tag attrs children =>
    if tag ∈ opts.keepTags then do
      let (_, refs1) ← processChildren opts extra tag attrs
        (isCodeN ctx (.elem tag attrs children)) [] children [] refs
      .ok (serializeNode (.elem tag attrs children), refs1)
    else do
      let (content, refs1) ← processChildren opts extra tag attrs
        (isCodeN ctx (.elem tag attrs children)) [] children [] refs
      let fl := flankingWs opts.preformattedCode ctx (.elem tag attrs children)
      let content2 :=
        if !fl.leading.isEmpty || !fl.trailing.isEmpty then trimStrC content
        else content
      let rid := ruleFor opts extra ctx tag attrs children
      let (converted, refs2) ← applyRule opts rid ctx tag attrs children content2 refs1
      .ok (fl.leading ++ converted ++ fl.trailing, refs2)

/-- The child fold of the reducer (`processChildren` in src/turndown.cpp):
children are reduced left to right and joined with `joinChunks`; the context
of each child carries the parent element's data and the split sibling
lists. -/
def processChildren (opts : Options) (extra : ExtraRules) (ptag : String)
    (pattrs : List (String × List Char)) (childInCode : Bool)
    (left rest : List DomNode) (acc : List Char) (refs : List (List Char)) :
    Except PErr (List Char × List (List Char)) :=
  match rest with
  | [] => .ok (acc, refs)
  | c :: cs => do
    let cctx : Ctx := ⟨some ptag, pattrs, left, cs, childInCode⟩
    let (s, refs1) ← processNode opts extra cctx c refs
    processChildren opts extra ptag pattrs childInCode (left ++ [c]) cs
      (joinChunks acc s) refs1
end

mutual
/-- The number of `<a>` elements with a non-empty `href` attribute in a
subtree. -/
def countAnchors : DomNode → Nat
  | .elem t attrs cs =>
    countAnchorsList cs + (if t = "a" && !(attrOf attrs "href").isEmpty then 1 else 0)
  | _ => 0

/-- The anchor count of a node list. -/
def countAnchorsList : List DomNode → Nat
  | [] => 0
  | c :: cs => countAnchors c + countAnchorsList cs
end

/-- The referenceLink rule's `append` (src/commonmark_rules.cpp): the
accumulated reference table wrapped in blank lines, empty when no references
were collected. -/
def referenceAppendOut (refs : List (List Char)) : List Char :=
  if refs = [] then []
  else "\n\n".toList ++ refs.foldl (fun acc r => acc ++ r ++ ['\n']) []
    ++ "\n\n".toList

/-- The conversion pipeline (`TurndownService::runPipeline`): reduce the
root's children, re-encode NBSP, join the rule appends (the reference
table), re-encode NBSP again, then trim leading newlines and trailing ASCII
whitespace.  The result also carries the reference store at append time —
its entries are the lines of the appended table. -/
def runPipelineModel (opts : Options) (extra : ExtraRules) (root : DomNode) :
    Except PErr (List Char × List (List Char)) :=
  match root with
  | .elem tag attrs children => do
    let (md, refs) ← processChildren opts extra tag attrs (decide (tag = "code"))
      [] children [] []
    let md1 := encodeNbspChars md
    let md2 := joinChunks md1 (referenceAppendOut refs)
    let md3 := encodeNbspChars md2
    .ok (finalTrim md3, refs)
  | _ => .ok ([], [])

/-- The default options of the `TurndownOptions` constructor, with
`advancedEscape` as the escape function. -/
def defaultOptions : Options := { escapeFunction := advancedEscape }

/-! ## Shared helper lemmas -/

theorem head?_dropWhile_eq_some {α} {p : α → Bool} {l : List α} {a : α}
    (h : (l.dropWhile p).head? = some a) : p a = false := by
  induction l with
  | nil => simp [List.dropWhile] at h
  | cons b bs ih =>
    rw [List.dropWhile_cons] at h
    by_cases hb : p b = true
    · simp [hb] at h
      exact ih h
    · simp [hb] at h
      simp [h ▸ hb]

theorem head?_of_isPrefix {α} {l₁ l₂ : List α} (h : l₁ <+: l₂) (hne : l₁ ≠ []) :
    l₂.head? = l₁.head? := by
  rcases h with ⟨u, rfl⟩
  cases l₁ with
  | nil => exact absurd rfl hne
  | cons a as => simp

theorem trimTrailingWsEnd_isPrefix (s : List Char) : trimTrailingWsEnd s <+: s := by
  unfold trimTrailingWsEnd
  have h : s.reverse.dropWhile isTrailWs <:+ s.reverse := List.dropWhile_suffix _
  have := List.reverse_prefix.mpr h
  simpa using this

theorem getLast?_trimTrailingWsEnd {s : List Char} {c : Char}
    (h : (trimTrailingWsEnd s).getLast? = some c) : isTrailWs c = false := by
  unfold trimTrailingWsEnd at h
  rw [List.getLast?_reverse] at h
  exact head?_dropWhile_eq_some h

theorem head?_trimTrailingWsEnd_of_ne {s : List Char}
    (h : trimTrailingWsEnd s ≠ []) : (trimTrailingWsEnd s).head? = s.head? :=
  (head?_of_isPrefix (trimTrailingWsEnd_isPrefix s) h).symm

theorem trimTrailingWsEnd_ne_nil {s : List Char} {d : Char}
    (hd : d ∈ s) (hw : isTrailWs d = false) : trimTrailingWsEnd s ≠ [] := by
  unfold trimTrailingWsEnd
  intro h
  rw [List.reverse_eq_nil_iff, List.dropWhile_eq_nil_iff] at h
  exact absurd (h d (List.mem_reverse.mpr hd)) (by simp [hw])

/-! ## Claim theorems -/

/-- C8: for all strings `a` and `b`, `join(a, b)` returns `b` when `a` is
empty and `a` when `b` is empty; otherwise it returns `a` with trailing CR/LF
stripped, then `min(2, max(count stripped from a, count stripped from b))`
newlines, then `b` with leading CR/LF stripped. -/
theorem joinChunks_characterization (a b : List Char) (ha : a ≠ []) (hb : b ≠ []) :
    joinChunks a [] = a ∧ joinChunks [] b = b ∧
    joinChunks a b =
      trimTrailingNewlines a ++
        List.replicate
          (min 2 (max (a.length - (trimTrailingNewlines a).length)
                      (b.length - (trimLeadingNewlines b).length))) '\n' ++
        trimLeadingNewlines b := by
  refine ⟨?_, ?_, ?_⟩
  · unfold joinChunks
    by_cases h : a = [] <;> simp [h]
  · unfold joinChunks
    simp
  · unfold joinChunks
    rw [if_neg ha, if_neg hb]
    have h : ∀ x : Nat, (if x > 2 then 2 else x) = min 2 x := by
      intro x; split <;> omega
    dsimp only
    rw [h]

/-- C8 witness. -/
theorem joinChunks_characterization_witness :
    joinChunks ("x".toList) [] = "x".toList ∧ joinChunks [] ("y".toList) = "y".toList ∧
    joinChunks ("x".toList) ("y".toList) =
      trimTrailingNewlines ("x".toList) ++
        List.replicate
          (min 2 (max (("x".toList).length - (trimTrailingNewlines ("x".toList)).length)
                      (("y".toList).length - (trimLeadingNewlines ("y".toList)).length))) '\n' ++
        trimLeadingNewlines ("y".toList) :=
  joinChunks_characterization ("x".toList) ("y".toList) (by decide) (by decide)

/-- C9: for every string `s`, `minimalEscape s` contains `s` as a
subsequence, and it is exactly the character-wise expansion in which every
backslash and square bracket of `s` is preceded by an inserted backslash
while every other character is copied unchanged. -/
theorem minimalEscape_characterization (s : List Char) :
    s.Sublist (minimalEscape s) ∧
    minimalEscape s =
      s.flatMap (fun c => if isMinimalSpecial c then ['\\', c] else [c]) := by
  induction s with
  | nil => simp [minimalEscape]
  | cons c cs ih =>
    by_cases h : isMinimalSpecial c = true
    · refine ⟨?_, ?_⟩
      · simpa [minimalEscape, h] using ((ih.1.cons₂ c).cons '\\')
      · simp [minimalEscape, h, ih.2]
    · refine ⟨?_, ?_⟩
      · simpa [minimalEscape, h] using (ih.1.cons₂ c)
      · simp [minimalEscape, h, ih.2]

/-- C3 counterexample: the replacement written for an NBSP is the literal
`&nbsp;`, which is six characters long, not seven as the claim (following
the spec) states. -/
theorem nbspEntity_six_bytes_cex :
    encodeNbspBytes [0xC2, 0xA0] = nbspEntityBytes ∧
    nbspEntityBytes.length = 6 ∧ nbspEntityBytes.length ≠ 7 := by
  decide

theorem hasNbspPair_cons (b : Nat) (l : List Nat) :
    hasNbspPair (b :: l) =
      ((decide (b = 0xC2) && decide (l.head? = some 0xA0)) || hasNbspPair l) := by
  cases l with
  | nil => simp [hasNbspPair]
  | cons c cs => simp [hasNbspPair]

theorem encodeNbspBytes_head? (rest : List Nat) :
    (encodeNbspBytes rest).head? = rest.head? ∨
      (encodeNbspBytes rest).head? = some 38 := by
  induction rest using encodeNbspBytes.induct with
  | case1 r ih => right; simp [encodeNbspBytes, nbspEntityBytes]
  | case2 b r h ih =>
    left
    rw [encodeNbspBytes.eq_2 b r (by intro r1 hb hr; exact h r1 hb hr)]
    simp
  | case3 => left; simp [encodeNbspBytes]

/-- C3 (amended): after `encodeNbsp`, which replaces every UTF-8 NBSP byte
pair `C2 A0` by the six-character sequence `&nbsp;`, no `C2 A0` pair remains
anywhere in the output; trimming ASCII bytes from the ends afterwards cannot
create one, so the final output is free of them. -/
theorem encodeNbspBytes_no_pair (bs : List Nat) :
    hasNbspPair (encodeNbspBytes bs) = false := by
  induction bs using encodeNbspBytes.induct with
  | case1 rest ih =>
    rw [show encodeNbspBytes (0xC2 :: 0xA0 :: rest)
        = nbspEntityBytes ++ encodeNbspBytes rest from rfl]
    simp only [nbspEntityBytes, List.cons_append, List.nil_append, hasNbspPair_cons]
    simp [ih]
  | case2 b rest h ih =>
    rw [encodeNbspBytes.eq_2 b rest (by intro r1 hb hr; exact h r1 hb hr)]
    rw [hasNbspPair_cons]
    simp only [ih, Bool.or_false]
    by_cases hb : b = 0xC2
    · subst hb
      have hne : rest.head? ≠ some 0xA0 := by
        cases rest with
        | nil => simp
        | cons c cs =>
          simp only [List.head?_cons, ne_eq, Option.some.injEq]
          intro hc
          exact h cs rfl (by rw [hc])
      rcases encodeNbspBytes_head? rest with he | he
      · simp [he, hne]
      · simp [he]
    · simp [hb]
  | case3 => simp [encodeNbspBytes, hasNbspPair]

theorem runPipelineModel_elem_ok {opts : Options} {extra : ExtraRules}
    {tag : String} {attrs : List (String × List Char)} {children : List DomNode}
    {md : List Char} {refs : List (List Char)}
    (h : runPipelineModel opts extra (.elem tag attrs children) = .ok (md, refs)) :
    ∃ m r, processChildren opts extra tag attrs (decide (tag = "code"))
        [] children [] [] = .ok (m, r) ∧
      md = finalTrim (encodeNbspChars (joinChunks (encodeNbspChars m)
        (referenceAppendOut r))) ∧ refs = r := by
  unfold runPipelineModel at h
  dsimp only at h
  cases hres : processChildren opts extra tag attrs (decide (tag = "code"))
      [] children [] [] with
  | error e => rw [hres] at h; exact Except.noConfusion h
  | ok pr =>
    obtain ⟨m, r⟩ := pr
    rw [hres] at h
    have h2 : (Except.ok (finalTrim (encodeNbspChars (joinChunks (encodeNbspChars m)
        (referenceAppendOut r))), r) : Except PErr (List Char × List (List Char)))
        = .ok (md, refs) := h
    injection h2 with h3
    exact ⟨m, r, rfl, (congrArg Prod.fst h3).symm, (congrArg Prod.snd h3).symm⟩

theorem head?_finalTrim {s : List Char} {c : Char}
    (h : (finalTrim s).head? = some c) : isNlCr c = false := by
  unfold finalTrim at h
  have hne : trimTrailingWsEnd (trimLeadingNewlines s) ≠ [] := by
    intro he; rw [he] at h; simp at h
  rw [head?_trimTrailingWsEnd_of_ne hne] at h
  unfold trimLeadingNewlines at h
  exact head?_dropWhile_eq_some h

theorem getLast?_finalTrim {s : List Char} {c : Char}
    (h : (finalTrim s).getLast? = some c) : isTrailWs c = false :=
  getLast?_trimTrailingWsEnd h

/-- C1: for every conversion run that returns a Markdown string, that string
has no leading LF/CR character and does not end in ASCII whitespace (space,
tab, CR, LF); and the final trim preserves a leading space or tab at
position 0 whenever the string has any non-whitespace content. -/
theorem pipeline_edge_whitespace :
    (∀ (opts : Options) (extra : ExtraRules) (root : DomNode)
        (md : List Char) (refs : List (List Char)),
        runPipelineModel opts extra root = .ok (md, refs) →
        (∀ c, md.head? = some c → isNlCr c = false) ∧
        (∀ c, md.getLast? = some c → isTrailWs c = false)) ∧
    (∀ (s : List Char) (c : Char), s.head? = some c → (c = ' ' ∨ c = '\t') →
        (∃ d ∈ s, isTrailWs d = false) → (finalTrim s).head? = some c) := by
  constructor
  · intro opts extra root md refs h
    have hshape : md = [] ∨ ∃ t, md = finalTrim t := by
      cases root with
      | text s =>
        left
        have h2 : (Except.ok ([], []) : Except PErr (List Char × List (List Char)))
            = .ok (md, refs) := h
        injection h2 with h3
        injection h3 with h4 _
        exact h4.symm
      | comment s =>
        left
        have h2 : (Except.ok ([], []) : Except PErr (List Char × List (List Char)))
            = .ok (md, refs) := h
        injection h2 with h3
        injection h3 with h4 _
        exact h4.symm
      | elem tag attrs children =>
        right
        rcases runPipelineModel_elem_ok h with ⟨m, r, _, hmd, _⟩
        exact ⟨_, hmd⟩
    rcases hshape with rfl | ⟨t, rfl⟩
    · constructor <;> intro c hc <;> simp at hc
    · exact ⟨fun c hc => head?_finalTrim hc, fun c hc => getLast?_finalTrim hc⟩
  · intro s c hc hct hex
    have hnl : isNlCr c = false := by
      rcases hct with rfl | rfl <;> decide
    have hlead : trimLeadingNewlines s = s := by
      cases s with
      | nil => simp at hc
      | cons a t =>
        simp only [List.head?_cons, Option.some.injEq] at hc
        subst hc
        unfold trimLeadingNewlines
        rw [List.dropWhile_cons_of_neg (by simp [hnl])]
    rcases hex with ⟨d, hd, hw⟩
    have hne : trimTrailingWsEnd s ≠ [] := trimTrailingWsEnd_ne_nil hd hw
    unfold finalTrim
    rw [hlead, head?_trimTrailingWsEnd_of_ne hne]
    exact hc

theorem mem_le_foldr_max (runs : List Nat) (x : Nat) (hx : x ∈ runs) :
    x ≤ runs.foldr max 0 := by
  induction runs with
  | nil => simp at hx
  | cons r rs ih =>
    rcases List.mem_cons.mp hx with rfl | h
    · simp [List.foldr_cons, Nat.le_max_left]
    · exact Nat.le_trans (ih h) (by simp [List.foldr_cons, Nat.le_max_right])

theorem delimSearch_ge (runs : List Nat) (fuel k : Nat) :
    k ≤ delimSearch runs fuel k := by
  induction fuel generalizing k with
  | zero => simp [delimSearch]
  | succ f ih =>
    unfold delimSearch
    split
    · exact Nat.le_trans (Nat.le_succ k) (ih (k + 1))
    · exact Nat.le_refl k

theorem delimSearch_not_mem (runs : List Nat) (fuel k : Nat)
    (h : runs.foldr max 0 < k + fuel) : delimSearch runs fuel k ∉ runs := by
  induction fuel generalizing k with
  | zero =>
    intro hmem
    exact absurd (mem_le_foldr_max runs _ hmem) (by simpa using Nat.not_le.mpr h)
  | succ f ih =>
    unfold delimSearch
    split
    · exact ih (k + 1) (by omega)
    · assumption

theorem delimSearch_min (runs : List Nat) (fuel k : Nat)
    (hinv : ∀ j, 1 ≤ j → j < k → j ∈ runs) :
    ∀ j, 1 ≤ j → j < delimSearch runs fuel k → j ∈ runs := by
  induction fuel generalizing k with
  | zero => simpa [delimSearch] using hinv
  | succ f ih =>
    unfold delimSearch
    split
    · refine ih (k + 1) ?_
      intro j h1 hk
      rcases Nat.lt_or_ge j k with hlt | hge
      · exact hinv j h1 hlt
      · have : j = k := by omega
        subst this
        assumption
    · exact hinv

theorem delimiterLen_not_mem (runs : List Nat) : delimiterLen runs ∉ runs :=
  delimSearch_not_mem runs (runs.foldr max 0 + 1) 1 (by omega)

theorem delimiterLen_pos (runs : List Nat) : 1 ≤ delimiterLen runs :=
  delimSearch_ge runs (runs.foldr max 0 + 1) 1

theorem delimiterLen_min (runs : List Nat) :
    ∀ j, 1 ≤ j → j < delimiterLen runs → j ∈ runs :=
  delimSearch_min runs (runs.foldr max 0 + 1) 1 (by omega)

theorem newlinesToSpaces_no_nl (s : List Char) :
    ∀ c ∈ newlinesToSpaces s, c ≠ '\n' ∧ c ≠ '\r' := by
  induction s using newlinesToSpaces.induct with
  | case1 rest ih =>
    intro c hc
    rw [show newlinesToSpaces ('\r' :: '\n' :: rest) = ' ' :: newlinesToSpaces rest
      from rfl] at hc
    rcases List.mem_cons.mp hc with rfl | h
    · exact ⟨by decide, by decide⟩
    · exact ih c h
  | case2 rest ih =>
    intro c hc
    rw [show newlinesToSpaces ('\n' :: rest) = ' ' :: newlinesToSpaces rest
      from rfl] at hc
    rcases List.mem_cons.mp hc with rfl | h
    · exact ⟨by decide, by decide⟩
    · exact ih c h
  | case3 rest h1 ih =>
    intro c hc
    rw [newlinesToSpaces.eq_3 rest (by intro r hr; exact h1 r hr)] at hc
    rcases List.mem_cons.mp hc with rfl | h
    · exact ⟨by decide, by decide⟩
    · exact ih c h
  | case4 c0 rest h1 h2 h3 ih =>
    intro c hc
    rw [newlinesToSpaces.eq_4 c0 rest (by intro r hr; exact h1 r hr) h2 h3] at hc
    rcases List.mem_cons.mp hc with rfl | h
    · exact ⟨h2, h3⟩
    · exact ih c h
  | case5 => intro c hc; simp [newlinesToSpaces] at hc

/-- C2 counterexample: for the content `a``b` the content holds a backtick
run of length 2, yet the inline code rule chooses a delimiter of a single
backtick — the shortest run absent from the content, not a run longer than
every run present. -/
theorem code_delimiter_cex :
    backtickRuns (newlinesToSpaces ("a``b".toList)) = [2] ∧
    delimiterLen [2] = 1 ∧ ¬ (2 < 1) ∧
    codeReplacement ("a``b".toList) = "`a``b`".toList := by
  decide

/-- C2 (amended): for every non-empty content, the inline code rule collapses
CR/LF to spaces, wraps the result in the shortest backtick run whose length
differs from the length of every maximal backtick run present in the content
(which may be shorter than runs that are present), and pads with a single
space exactly when the content starts or ends with a backtick or starts and
ends with a space with some non-space character in between. -/
theorem code_rule_amended (content : List Char) (h : content ≠ []) :
    codeReplacement content =
      List.replicate (delimiterLen (backtickRuns (newlinesToSpaces content))) backtick
        ++ (if needsSpaceB (newlinesToSpaces content) then [' '] else [])
        ++ newlinesToSpaces content
        ++ (if needsSpaceB (newlinesToSpaces content) then [' '] else [])
        ++ List.replicate (delimiterLen (backtickRuns (newlinesToSpaces content))) backtick
    ∧ (∀ c ∈ newlinesToSpaces content, c ≠ '\n' ∧ c ≠ '\r')
    ∧ 1 ≤ delimiterLen (backtickRuns (newlinesToSpaces content))
    ∧ delimiterLen (backtickRuns (newlinesToSpaces content))
        ∉ backtickRuns (newlinesToSpaces content)
    ∧ (∀ j, 1 ≤ j → j < delimiterLen (backtickRuns (newlinesToSpaces content)) →
        j ∈ backtickRuns (newlinesToSpaces content))
    ∧ (needsSpaceB (newlinesToSpaces content) = true ↔
        ((newlinesToSpaces content).head? = some backtick ∨
         (newlinesToSpaces content).getLast? = some backtick ∨
         ((newlinesToSpaces content).head? = some ' ' ∧
          (newlinesToSpaces content).getLast? = some ' ' ∧
          ∃ c ∈ ((newlinesToSpaces content).drop 1).dropLast, ¬(c = ' ')))) := by
  refine ⟨?_, newlinesToSpaces_no_nl content, delimiterLen_pos _,
    delimiterLen_not_mem _, delimiterLen_min _, ?_⟩
  · unfold codeReplacement
    rw [if_neg h]
  · simp [needsSpaceB, List.any_eq_true]
    tauto

/-- C2 witness. -/
theorem code_rule_amended_witness :
    codeReplacement ("ab".toList) =
      List.replicate (delimiterLen (backtickRuns (newlinesToSpaces ("ab".toList)))) backtick
        ++ (if needsSpaceB (newlinesToSpaces ("ab".toList)) then [' '] else [])
        ++ newlinesToSpaces ("ab".toList)
        ++ (if needsSpaceB (newlinesToSpaces ("ab".toList)) then [' '] else [])
        ++ List.replicate (delimiterLen (backtickRuns (newlinesToSpaces ("ab".toList)))) backtick
    ∧ (∀ c ∈ newlinesToSpaces ("ab".toList), c ≠ '\n' ∧ c ≠ '\r')
    ∧ 1 ≤ delimiterLen (backtickRuns (newlinesToSpaces ("ab".toList)))
    ∧ delimiterLen (backtickRuns (newlinesToSpaces ("ab".toList)))
        ∉ backtickRuns (newlinesToSpaces ("ab".toList))
    ∧ (∀ j, 1 ≤ j → j < delimiterLen (backtickRuns (newlinesToSpaces ("ab".toList))) →
        j ∈ backtickRuns (newlinesToSpaces ("ab".toList)))
    ∧ (needsSpaceB (newlinesToSpaces ("ab".toList)) = true ↔
        ((newlinesToSpaces ("ab".toList)).head? = some backtick ∨
         (newlinesToSpaces ("ab".toList)).getLast? = some backtick ∨
         ((newlinesToSpaces ("ab".toList)).head? = some ' ' ∧
          (newlinesToSpaces ("ab".toList)).getLast? = some ' ' ∧
          ∃ c ∈ ((newlinesToSpaces ("ab".toList)).drop 1).dropLast, ¬(c = ' ')))) :=
  code_rule_amended ("ab".toList) (by decide)

theorem fenceFold_le (fc : Char) (lines : List (List Char)) :
    ∀ acc : Nat, acc ≤ lines.foldl
      (fun acc line =>
        let run := leadingRun fc line
        if 3 ≤ run then max acc (run + 1) else acc) acc := by
  induction lines with
  | nil => intro acc; simp
  | cons l ls ih =>
    intro acc
    simp only [List.foldl_cons]
    refine Nat.le_trans ?_ (ih _)
    dsimp only
    split
    · exact Nat.le_max_left _ _
    · exact Nat.le_refl _

theorem fenceFold_mem (fc : Char) (lines : List (List Char)) (line : List Char)
    (hmem : line ∈ lines) (hrun : 3 ≤ leadingRun fc line) :
    ∀ acc : Nat, leadingRun fc line + 1 ≤ lines.foldl
      (fun acc line =>
        let run := leadingRun fc line
        if 3 ≤ run then max acc (run + 1) else acc) acc := by
  induction lines with
  | nil => simp at hmem
  | cons l ls ih =>
    intro acc
    simp only [List.foldl_cons]
    rcases List.mem_cons.mp hmem with rfl | h
    · refine Nat.le_trans ?_ (fenceFold_le fc ls _)
      dsimp only
      rw [if_pos hrun]
      exact Nat.le_max_right _ _
    · exact ih h _

/-- C5 counterexample: with fence character `~`, the code text `x~~~y`
contains a run of three fence characters inside the text, yet the computed
fence length stays 3 — only runs at the start of a line are counted, so the
claimed `run + 1 = 4` lower bound fails. -/
theorem fence_midline_run_cex :
    "x~~~y".toList = "x".toList ++ "~~~".toList ++ "y".toList ∧
    fenceSizeFor '~' ("x~~~y".toList) = 3 ∧ ¬ (3 + 1 ≤ 3) := by
  decide

/-- C5 (amended): the emitted fence length starts at 3 and, for every run of
fence characters of length at least 3 at the start of a line of the code
text, is at least one more than that run's length; the concrete scenario
`<pre><code>~~~\nCode\n~~~\n</code></pre>` with fenced style and fence `~~~`
converts end-to-end to `~~~~\n~~~\nCode\n~~~\n~~~~`. -/
theorem fenced_code_amended (fc : Char) (code : List Char) :
    3 ≤ fenceSizeFor fc code
    ∧ (∀ line ∈ code.splitOn '\n', 3 ≤ leadingRun fc line →
        leadingRun fc line + 1 ≤ fenceSizeFor fc code)
    ∧ runPipelineModel
        { defaultOptions with codeBlockStyle := "fenced", fence := "~~~".toList } {}
        (.elem "body" [] [.elem "pre" []
          [.elem "code" [] [.text "~~~\nCode\n~~~\n".toList]]])
      = .ok ("~~~~\n~~~\nCode\n~~~\n~~~~".toList, []) := by
  refine ⟨fenceFold_le fc (code.splitOn '\n') 3, ?_, ?_⟩
  · intro line hmem hrun
    exact fenceFold_mem fc (code.splitOn '\n') line hmem hrun 3
  · rfl

/-- C5 witness. -/
theorem fenced_code_amended_witness :
    3 ≤ fenceSizeFor '~' ("x".toList)
    ∧ (∀ line ∈ ("x".toList).splitOn '\n', 3 ≤ leadingRun '~' line →
        leadingRun '~' line + 1 ≤ fenceSizeFor '~' ("x".toList))
    ∧ runPipelineModel
        { defaultOptions with codeBlockStyle := "fenced", fence := "~~~".toList } {}
        (.elem "body" [] [.elem "pre" []
          [.elem "code" [] [.text "~~~\nCode\n~~~\n".toList]]])
      = .ok ("~~~~\n~~~\nCode\n~~~\n~~~~".toList, []) :=
  fenced_code_amended '~' ("x".toList)

/-- C4: converting an `<ol>` whose `start` attribute is present but
non-numeric (or out of the 32-bit integer range) reaches `std::stoi`, which
throws with nothing catching it — modelled by `none` — contradicting the
spec's promise that the engine does not raise once a DOM exists; when the
attribute is absent the numbering defaults to 1. -/
theorem listItem_start_attribute :
    listItemOlMarker ("x".toList) 0 = none ∧
    cppStoi ("9999999999".toList) = none ∧
    listItemOlMarker [] 0 = some ("1.  ".toList) ∧
    listItemOlMarker [] 2 = some ("3.  ".toList) ∧
    listItemOlMarker ("42".toList) 1 = some ("43.  ".toList) := by
  decide

/-- C6 counterexample: at an inline element that is neither block, `<br>`,
void nor preformatted, the walk leaves `keepLeading` untouched when no
previous text node has been recorded — here a `span` visited right after an
`img` set the flag, and the flag stays set, so it is not cleared "regardless
of whether a previous text node has been recorded"; the following text node
consequently keeps its leading space. -/
theorem collapse_inline_keepLeading_cex :
    collapseElementStep false "img" ⟨[], [], none, false⟩ = ⟨[], [], none, true⟩ ∧
    collapseElementStep false "span" ⟨[], [], none, true⟩ = ⟨[], [], none, true⟩ ∧
    (collapseElementStep false "span" ⟨[], [], none, true⟩).keepLeading = true ∧
    collapseTextStep 7 (" x".toList) (collapseElementStep false "span" ⟨[], [], none, true⟩)
      = ⟨[(7, " x".toList)], [], some 7, false⟩ := by
  decide

/-- C6 (amended): for an element that is neither block, `<br>`, void nor
preformatted, the walk clears `keepLeading` exactly when a previous text
node has been recorded; with no previous text node the state is left
entirely unchanged. -/
theorem collapse_inline_step (treat : Bool) (tag : String) (st : CollapseState)
    (hb : tag ∉ blockTags) (hbr : tag ≠ "br") (hv : tag ∉ voidTags)
    (hp : tag ≠ "pre") (hc : ¬(treat = true ∧ tag = "code")) :
    (st.prevText.isSome = true →
      collapseElementStep treat tag st = { st with keepLeading := false }) ∧
    (st.prevText = none → collapseElementStep treat tag st = st) := by
  have hcond1 : (decide (tag ∈ blockTags) || decide (tag = "br")) = false := by
    simp [hb, hbr]
  have hcond2 : (decide (tag ∈ voidTags) ||
      (decide (tag = "pre") || (treat && decide (tag = "code")))) = false := by
    rcases Bool.eq_false_or_eq_true treat with ht | ht
    · have : tag ≠ "code" := fun h => hc ⟨ht, h⟩
      simp [hv, hp, ht, this]
    · simp [hv, hp, ht]
  constructor
  · intro hsome
    unfold collapseElementStep
    simp only []
    rw [if_neg (by simp_all), if_neg (by simp_all), if_pos hsome]
  · intro hnone
    unfold collapseElementStep
    simp only []
    rw [if_neg (by simp_all), if_neg (by simp_all),
      if_neg (by simp [hnone])]

/-- C6 witness. -/
theorem collapse_inline_step_witness :
    ((⟨[(3, "t ".toList)], [], some 3, true⟩ : CollapseState).prevText.isSome = true →
      collapseElementStep false "span" ⟨[(3, "t ".toList)], [], some 3, true⟩
        = { (⟨[(3, "t ".toList)], [], some 3, true⟩ : CollapseState) with keepLeading := false }) ∧
    ((⟨[(3, "t ".toList)], [], some 3, true⟩ : CollapseState).prevText = none →
      collapseElementStep false "span" ⟨[(3, "t ".toList)], [], some 3, true⟩
        = ⟨[(3, "t ".toList)], [], some 3, true⟩) :=
  collapse_inline_step false "span" ⟨[(3, "t ".toList)], [], some 3, true⟩
    (by decide) (by decide) (by decide) (by decide) (by simp)

theorem isBlankN_anchor (attrs : List (String × List Char)) (cs : List DomNode) :
    isBlankN (.elem "a" attrs cs) = false := by
  simp [isBlankN, isMeaningfulN, nodeHasTagIn, elemTag?, isElemB,
    meaningfulWhenBlankTags]

theorem builtinScan_eq_some {l : List (Bool × RuleId)} {r : RuleId}
    (h : builtinScan l = some r) : ∃ g, (g, r) ∈ l ∧ g = true := by
  induction l with
  | nil => exact absurd h (by simp [builtinScan])
  | cons p rest ih =>
    obtain ⟨g, rr⟩ := p
    by_cases hg : g = true
    · have h2 : some rr = some r := by
        rw [← h]
        rw [show builtinScan ((g, rr) :: rest) = if g then some rr else builtinScan rest
          from rfl]
        rw [if_pos hg]
      injection h2 with h3
      exact ⟨g, by simp [h3], hg⟩
    · have h2 : builtinScan rest = some r := by
        rw [← h]
        rw [show builtinScan ((g, rr) :: rest) = if g then some rr else builtinScan rest
          from rfl]
        rw [if_neg hg]
      obtain ⟨g2, hmem, hg2⟩ := ih h2
      exact ⟨g2, List.mem_cons_of_mem _ hmem, hg2⟩

theorem ruleFor_anchor (opts : Options) (extra : ExtraRules) (ctx : Ctx)
    (attrs : List (String × List Char)) (children : List DomNode)
    (hls : opts.linkStyle = "referenced")
    (hh : (attrOf attrs "href").isEmpty = false) :
    ruleFor opts extra ctx "a" attrs children = RuleId.referenceLink := by
  unfold ruleFor
  rw [if_neg (by simp [isBlankN_anchor])]
  have hscan : builtinScan (builtinGuards opts ctx "a" attrs children)
      = some RuleId.referenceLink := by
    simp [builtinGuards, builtinScan, hls, hh]
  rw [hscan]

theorem ruleFor_not_anchor (opts : Options) (extra : ExtraRules) (ctx : Ctx)
    (tag : String) (attrs : List (String × List Char)) (children : List DomNode)
    (hna : ¬(tag = "a" ∧ (attrOf attrs "href").isEmpty = false)) :
    ruleFor opts extra ctx tag attrs children ≠ RuleId.referenceLink := by
  have hG : ¬(decide (opts.linkStyle = "referenced") && decide (tag = "a") &&
      !(attrOf attrs "href").isEmpty) = true := by
    intro hx
    simp only [Bool.and_eq_true, decide_eq_true_eq] at hx
    refine hna ⟨hx.1.2, ?_⟩
    have h2 := hx.2
    simp only [Bool.not_eq_true'] at h2
    exact h2
  intro hcontra
  unfold ruleFor at hcontra
  dsimp only at hcontra
  split at hcontra
  · exact RuleId.noConfusion hcontra
  · split at hcontra
    next r hsc =>
      subst hcontra
      obtain ⟨g, hmem, hg⟩ := builtinScan_eq_some hsc
      simp only [builtinGuards, List.mem_cons, List.not_mem_nil, or_false,
        Prod.mk.injEq] at hmem
      rcases hmem with h|h|h|h|h|h|h|h|h|h|h|h|h|h|h|h|h|h|h|h <;>
        first
          | exact absurd h.2.symm (by simp)
          | exact hG (h.1 ▸ hg)
    next hsc =>
      split at hcontra
      · exact RuleId.noConfusion hcontra
      · split at hcontra
        · exact RuleId.noConfusion hcontra
        · exact RuleId.noConfusion hcontra


theorem applyRule_refs (opts : Options) (rid : RuleId) (ctx : Ctx) (tag : String)
    (attrs : List (String × List Char)) (children : List DomNode)
    (content : List Char) (refs : List (List Char)) :
    (∃ e, applyRule opts rid ctx tag attrs children content refs = .error e) ∨
    (∃ out, applyRule opts rid ctx tag attrs children content refs = .ok (out, refs) ∧
      rid ≠ RuleId.referenceLink) ∨
    (∃ out entry, applyRule opts rid ctx tag attrs children content refs
        = .ok (out, refs ++ [entry]) ∧ rid = RuleId.referenceLink) := by
  cases rid with
  | blank => exact Or.inr (Or.inl ⟨_, rfl, by decide⟩)
  | paragraph => exact Or.inr (Or.inl ⟨_, rfl, by decide⟩)
  | lineBreak => exact Or.inr (Or.inl ⟨_, rfl, by decide⟩)
  | heading level =>
    dsimp only [applyRule]
    split
    · exact Or.inr (Or.inl ⟨_, rfl, by simp⟩)
    · exact Or.inr (Or.inl ⟨_, rfl, by simp⟩)
  | blockquote => exact Or.inr (Or.inl ⟨_, rfl, by decide⟩)
  | list =>
    dsimp only [applyRule]
    split
    · exact Or.inr (Or.inl ⟨_, rfl, by decide⟩)
    · exact Or.inr (Or.inl ⟨_, rfl, by decide⟩)
  | listItem =>
    dsimp only [applyRule]
    cases hres : listItemReplacement opts ctx content with
    | error e => exact Or.inl ⟨e, rfl⟩
    | ok v => exact Or.inr (Or.inl ⟨v, rfl, by decide⟩)
  | indentedCode => exact Or.inr (Or.inl ⟨_, rfl, by decide⟩)
  | fencedCode =>
    dsimp only [applyRule]
    cases hres : findChildTag children "code" with
    | none => exact Or.inr (Or.inl ⟨_, rfl, by decide⟩)
    | some cn => exact Or.inr (Or.inl ⟨_, rfl, by decide⟩)
  | horizontalRule => exact Or.inr (Or.inl ⟨_, rfl, by decide⟩)
  | inlineLink => exact Or.inr (Or.inl ⟨_, rfl, by decide⟩)
  | referenceLink =>
    dsimp only [applyRule]
    split
    · exact Or.inr (Or.inr ⟨_, _, rfl, rfl⟩)
    · split
      · exact Or.inr (Or.inr ⟨_, _, rfl, rfl⟩)
      · exact Or.inr (Or.inr ⟨_, _, rfl, rfl⟩)
  | emphasis =>
    dsimp only [applyRule]
    split
    · exact Or.inr (Or.inl ⟨_, rfl, by decide⟩)
    · exact Or.inr (Or.inl ⟨_, rfl, by decide⟩)
  | strong =>
    dsimp only [applyRule]
    split
    · exact Or.inr (Or.inl ⟨_, rfl, by decide⟩)
    · exact Or.inr (Or.inl ⟨_, rfl, by decide⟩)
  | code => exact Or.inr (Or.inl ⟨_, rfl, by decide⟩)
  | image =>
    dsimp only [applyRule]
    split
    · exact Or.inr (Or.inl ⟨_, rfl, by decide⟩)
    · exact Or.inr (Or.inl ⟨_, rfl, by decide⟩)
  | keep => exact Or.inr (Or.inl ⟨_, rfl, by decide⟩)
  | remove => exact Or.inr (Or.inl ⟨_, rfl, by decide⟩)
  | dflt =>
    dsimp only [applyRule]
    split
    · exact Or.inr (Or.inl ⟨_, rfl, by decide⟩)
    · exact Or.inr (Or.inl ⟨_, rfl, by decide⟩)

theorem applyRule_ok_refs_length {opts : Options} {rid : RuleId} {ctx : Ctx}
    {tag : String} {attrs : List (String × List Char)} {children : List DomNode}
    {content : List Char} {refs : List (List Char)} {out : List Char}
    {refs2 : List (List Char)}
    (h : applyRule opts rid ctx tag attrs children content refs = .ok (out, refs2)) :
    refs2.length = refs.length + (if rid = RuleId.referenceLink then 1 else 0) := by
  rcases applyRule_refs opts rid ctx tag attrs children content refs with
    ⟨e, he⟩ | ⟨o, ho, hne⟩ | ⟨o, entry, ho, hrl⟩
  · rw [he] at h; exact absurd h (by simp)
  · rw [ho] at h
    injection h with h1
    have h2 := congrArg Prod.snd h1
    simp at h2
    simp [← h2, hne]
  · rw [ho] at h
    injection h with h1
    have h2 := congrArg Prod.snd h1
    simp at h2
    simp [← h2, hrl]

theorem except_bind_ok {ε α β : Type} {x : Except ε α} {f : α → Except ε β}
    {b : β} (h : x.bind f = .ok b) : ∃ a, x = .ok a ∧ f a = .ok b := by
  cases x with
  | error e => exact absurd h (by simp [Except.bind])
  | ok a => exact ⟨a, rfl, h⟩

theorem ok_pair_snd {ε α β : Type} {a1 : α} {b1 : β} {a2 : α} {b2 : β}
    (h : (Except.ok (a1, b1) : Except ε (α × β)) = .ok (a2, b2)) : b1 = b2 := by
  cases h
  rfl

theorem processNode_refs_count (opts : Options) (extra : ExtraRules)
    (hls : opts.linkStyle = "referenced") (hka : "a" ∉ opts.keepTags) :
    ∀ (ctx : Ctx) (n : DomNode) (refs : List (List Char)),
      (∀ out refs2, processNode opts extra ctx n refs = .ok (out, refs2) →
        refs2.length = refs.length + countAnchors n) := by
  refine processNode.induct opts extra
    (fun ctx n refs => ∀ out refs2,
      processNode opts extra ctx n refs = .ok (out, refs2) →
        refs2.length = refs.length + countAnchors n)
    (fun ptag pattrs ic left rest acc refs => ∀ out refs2,
      processChildren opts extra ptag pattrs ic left rest acc refs = .ok (out, refs2) →
        refs2.length = refs.length + countAnchorsList rest)
    ?_ ?_ ?_ ?_ ?_ ?_ ?_ ?_
  · intro ctx refs out refs2 h
    have h4 : refs = refs2 := ok_pair_snd h
    simp [← h4, countAnchors]
  · intro ctx refs s hne hcode out refs2 h
    unfold processNode at h
    rw [if_neg hne, if_pos hcode] at h
    have h4 : refs = refs2 := ok_pair_snd h
    simp [← h4, countAnchors]
  · intro ctx refs s hne hcode out refs2 h
    unfold processNode at h
    rw [if_neg hne, if_neg hcode] at h
    have h4 : refs = refs2 := ok_pair_snd h
    simp [← h4, countAnchors]
  · intro ctx refs s out refs2 h
    have h4 : refs = refs2 := ok_pair_snd h
    simp [← h4, countAnchors]
  · intro ctx refs tag attrs cs hkt ih out refs2 h
    unfold processNode at h
    rw [if_pos hkt] at h
    obtain ⟨⟨m, r⟩, hpc, h⟩ := except_bind_ok h
    have h4 : r = refs2 := ok_pair_snd h
    have htag : tag ≠ "a" := fun hteq => hka (hteq ▸ hkt)
    have hcount := ih m r hpc
    rw [← h4, hcount]
    simp [countAnchors, htag]
  · intro ctx refs tag attrs cs hkt ih out refs2 h
    unfold processNode at h
    rw [if_neg hkt] at h
    obtain ⟨⟨content, refs1⟩, hpc, h⟩ := except_bind_ok h
    obtain ⟨⟨converted, refs2x⟩, har, h⟩ := except_bind_ok h
    have h4 : refs2x = refs2 := ok_pair_snd h
    have hcount1 := ih content refs1 hpc
    have hrl := applyRule_ok_refs_length har
    rw [← h4, hrl, hcount1]
    by_cases hra : tag = "a" ∧ (attrOf attrs "href").isEmpty = false
    · obtain ⟨rfl, hh⟩ := hra
      rw [if_pos (ruleFor_anchor opts extra ctx attrs cs hls hh)]
      simp [countAnchors, hh]
      omega
    · have hnr := ruleFor_not_anchor opts extra ctx tag attrs cs hra
      rw [if_neg hnr]
      have hind : (decide (tag = "a") && !(attrOf attrs "href").isEmpty) = false := by
        cases hb : decide (tag = "a") with
        | false => simp [hb]
        | true =>
          have htag : tag = "a" := of_decide_eq_true hb
          have hhref : (attrOf attrs "href").isEmpty = true := by
            rcases Bool.eq_false_or_eq_true ((attrOf attrs "href").isEmpty) with hy | hy
            <;> first
              | exact hy
              | exact absurd ⟨htag, hy⟩ hra
          simp [hhref]
      simp only [countAnchors]
      rw [if_neg (by simpa using hind)]
      omega
  · intro ptag pattrs ic left acc refs out refs2 h
    have h4 : refs = refs2 := ok_pair_snd h
    simp [← h4, countAnchorsList]
  · intro ptag pattrs ic left acc refs c cs cctx ih1 ih2 out refs2 h
    unfold processChildren at h
    obtain ⟨⟨s0, r0⟩, hn, h⟩ := except_bind_ok h
    have hc1 := ih1 s0 r0 hn
    have hc2 := ih2 s0 r0 out refs2 h
    rw [hc2, hc1]
    simp [countAnchorsList]
    omega

theorem ok_pair_fst {ε α β : Type} {a1 : α} {b1 : β} {a2 : α} {b2 : β}
    (h : (Except.ok (a1, b1) : Except ε (α × β)) = .ok (a2, b2)) : a1 = a2 := by
  cases h
  rfl

theorem processChildren_refs_count (opts : Options) (extra : ExtraRules)
    (hls : opts.linkStyle = "referenced") (hka : "a" ∉ opts.keepTags) :
    ∀ (rest left : List DomNode) (ptag : String)
      (pattrs : List (String × List Char)) (ic : Bool) (acc : List Char)
      (refs : List (List Char)) (out : List Char) (refs2 : List (List Char)),
      processChildren opts extra ptag pattrs ic left rest acc refs = .ok (out, refs2) →
      refs2.length = refs.length + countAnchorsList rest := by
  intro rest
  induction rest with
  | nil =>
    intro left ptag pattrs ic acc refs out refs2 h
    have h4 : refs = refs2 := ok_pair_snd h
    simp [← h4, countAnchorsList]
  | cons c cs ih =>
    intro left ptag pattrs ic acc refs out refs2 h
    unfold processChildren at h
    obtain ⟨⟨s0, r0⟩, hn, h⟩ := except_bind_ok h
    have hc1 := processNode_refs_count opts extra hls hka _ c refs s0 r0 hn
    have hc2 := ih (left ++ [c]) ptag pattrs ic (joinChunks acc s0) r0 out refs2 h
    rw [hc2, hc1]
    simp [countAnchorsList]
    omega

/-- C7 counterexample: with the keep-tags option set to keep `a`, the keep
bypass in `replacementForNode` short-circuits rule lookup, so the single
`<a>` element with a non-empty `href` produces raw HTML and zero reference
table entries — the entry count does not equal the anchor count for that
conversion run. -/
theorem reference_table_keepTags_cex :
    runPipelineModel
      { defaultOptions with linkStyle := "referenced", keepTags := ["a"] } {}
      (.elem "body" [] [.elem "a" [("href", "/u".toList)] [.text "y".toList]])
      = .ok ("<a href=\"/u\">y</a>".toList, []) ∧
    countAnchorsList [DomNode.elem "a" [("href", "/u".toList)] [.text "y".toList]] = 1 ∧
    ([] : List (List Char)).length ≠ 1 := by
  refine ⟨rfl, rfl, by decide⟩

/-- C7 (amended): for every conversion run with linkStyle `referenced` (any
reference style) whose keep-tags option does not name `a`, if the pipeline
returns, the number of entries in the reference table appended after the
document body equals the number of `<a>` elements with a non-empty `href`
attribute in the converted tree (the root's children). -/
theorem reference_table_entry_count (opts : Options) (extra : ExtraRules)
    (tag : String) (attrs : List (String × List Char)) (children : List DomNode)
    (md : List Char) (refs : List (List Char))
    (hls : opts.linkStyle = "referenced") (hka : "a" ∉ opts.keepTags)
    (h : runPipelineModel opts extra (.elem tag attrs children) = .ok (md, refs)) :
    refs.length = countAnchorsList children := by
  rcases runPipelineModel_elem_ok h with ⟨m, r, hpc, hmd, hr⟩
  subst hr
  have := processChildren_refs_count opts extra hls hka children [] tag attrs
    (decide (tag = "code")) [] [] m refs hpc
  simpa using this

/-- C7 witness. -/
theorem reference_table_entry_count_witness :
    (["[1]: /u".toList] : List (List Char)).length =
      countAnchorsList [DomNode.elem "a" [("href", "/u".toList)] [.text "y".toList]] :=
  reference_table_entry_count { defaultOptions with linkStyle := "referenced" } {}
    "body" [] [DomNode.elem "a" [("href", "/u".toList)] [.text "y".toList]]
    ("[y][1]\n\n[1]: /u".toList) (["[1]: /u".toList]) rfl (by decide) rfl

/-- C10: the reducer computes the children's Markdown — running every
descendant rule replacement, including the reference-link accumulation —
before applying the element's own matched rule, even when that rule discards
the content: here an `aside` element matched by a remove rule converts to
the empty string, yet the reference store still gains one entry per `<a>`
descendant with a non-empty `href`. -/
theorem removed_element_children_still_processed (opts : Options)
    (extra : ExtraRules) (ctx : Ctx) (attrs : List (String × List Char))
    (children : List DomNode) (refs : List (List Char)) (out : List Char)
    (refs2 : List (List Char))
    (hls : opts.linkStyle = "referenced") (hka : "a" ∉ opts.keepTags)
    (hkaside : "aside" ∉ opts.keepTags) (hkr : "aside" ∉ extra.keepTagsRules)
    (hrm : "aside" ∈ extra.removeTags)
    (hnb : isBlankN (.elem "aside" attrs children) = false)
    (h : processNode opts extra ctx (.elem "aside" attrs children) refs
      = .ok (out, refs2)) :
    out = [] ∧ refs2.length = refs.length + countAnchorsList children := by
  have hrid : ruleFor opts extra ctx "aside" attrs children = RuleId.remove := by
    unfold ruleFor
    rw [if_neg (by simp [hnb])]
    have hscan : builtinScan (builtinGuards opts ctx "aside" attrs children)
        = none := by
      simp [builtinGuards, builtinScan]
    rw [hscan]
    rw [if_neg hkr, if_pos hrm]
  have hblock : isBlockN (DomNode.elem "aside" attrs children) = true := by
    show decide ("aside" ∈ blockTags) = true
    decide
  have hfl : flankingWs opts.preformattedCode ctx (.elem "aside" attrs children)
      = ⟨[], []⟩ := by
    unfold flankingWs
    rw [if_pos (by simp [hblock])]
  unfold processNode at h
  rw [if_neg hkaside] at h
  obtain ⟨⟨content, refs1⟩, hpc, h⟩ := except_bind_ok h
  obtain ⟨⟨converted, refs2x⟩, har, h⟩ := except_bind_ok h
  rw [hrid] at har
  have har2 : (Except.ok ([], refs1) : Except PErr (List Char × List (List Char)))
      = .ok (converted, refs2x) := har
  have hconv : ([] : List Char) = converted := ok_pair_fst har2
  have hrefs1 : refs1 = refs2x := ok_pair_snd har2
  rw [hfl] at h
  have hout : [] ++ converted ++ [] = out := ok_pair_fst h
  have hrefs2 : refs2x = refs2 := ok_pair_snd h
  have hcount := processChildren_refs_count opts extra hls hka children []
    "aside" attrs (isCodeN ctx (.elem "aside" attrs children)) [] refs content refs1 hpc
  constructor
  · rw [← hout, ← hconv]
    rfl
  · rw [← hrefs2, ← hrefs1, hcount]

/-- C10 witness. -/
theorem removed_element_children_still_processed_witness :
    ([] : List Char) = [] ∧
    (["[1]: /u".toList] : List (List Char)).length =
      ([] : List (List Char)).length + countAnchorsList
        [DomNode.elem "a" [("href", "/u".toList)] [.text "y".toList]] :=
  removed_element_children_still_processed
    { defaultOptions with linkStyle := "referenced" } { removeTags := ["aside"] }
    ⟨some "body", [], [], [], false⟩ []
    [DomNode.elem "a" [("href", "/u".toList)] [.text "y".toList]]
    [] [] (["[1]: /u".toList]) rfl (by decide) (by decide) (by decide) (by decide)
    (by rfl) rfl

/-- C1 witness. -/
theorem pipeline_edge_whitespace_witness :
    ((∀ c, (("  x".toList : List Char)).head? = some c → (c = ' ' ∨ c = '\t') →
        (∃ d ∈ ("  x".toList : List Char), isTrailWs d = false) →
        (finalTrim ("  x".toList)).head? = some c)) ∧
    (finalTrim ("  x".toList)).head? = some ' ' := by
  constructor
  · intro c hc hct hex
    exact pipeline_edge_whitespace.2 ("  x".toList) c hc hct hex
  · exact pipeline_edge_whitespace.2 ("  x".toList) ' ' (by decide) (Or.inl rfl)
      ⟨'x', by decide, by decide⟩

end Turndown
